import Mathlib

/-!
Shallow embedding of the detection-to-hazard processing engine of
`src/backend/app/api/admin.py` (endpoints `process_detections` and
`reset_processed`).

Conventions of the embedding:
* Python floats are modelled as rationals (`ℚ`).
* Timestamps are modelled as integers (`Int`): only their order matters here.
* The database session is modelled as an explicit `DBState`: the list of
  `Detection` rows, the list of `Hazard` rows, and the next hazard id that
  `db.flush()` would assign.
* The PostGIS WKTElement value, built from an f-string of the form
  POINT(lon lat) with srid 4326, is modelled as an ordered pair `WKTPoint`
  whose first coordinate `x` is the first number written into the WKT text
  (the longitude) and whose second coordinate `y` is the second (the
  latitude).
* `SpatialClusteringService` lives in `app/services/clustering.py`, which is
  not part of the sources here; its `cluster_detections` method is taken as
  an explicit function parameter `cf`, and its `calculate_cluster_severity` /
  `calculate_cluster_centroid` methods are modelled from the spec (see their
  doc comments). Each Python cluster is a set of detection ids (`Finset Nat`).
* Python truthiness of the optional string `confirmed_type` (`None` and the
  empty string are falsy) is made explicit in `isTruthy`.
-/

/-- One row of the `detections` table, with the two fields
(`processed`, `hazard_id`) that `process_detections` mutates. -/
structure Detection where
  id : Nat
  latitude : ℚ
  longitude : ℚ
  magnitude : ℚ
  timestamp : Int
  user_id : Nat
  confirmed_type : Option String
  processed : Bool
  hazard_id : Option Nat
deriving DecidableEq, Repr

/-- Embedding of the WKTElement built at lines 114 and 212 from the
f-string POINT(lon lat): `x` is the first coordinate written into the WKT
text, `y` the second. -/
structure WKTPoint where
  x : ℚ
  y : ℚ
deriving DecidableEq, Repr

/-- One row of the `hazards` table, with exactly the fields the
`Hazard(...)` constructor calls in `process_detections` populate. -/
structure Hazard where
  id : Nat
  location : WKTPoint
  latitude : ℚ
  longitude : ℚ
  hazard_type : String
  severity : ℚ
  confidence : ℚ
  detection_count : Nat
  unique_user_count : Nat
  verification_count : Nat
  positive_verifications : Nat
  first_detected : Int
  last_detected : Int
  is_active : Bool
  is_verified : Bool
deriving DecidableEq, Repr

/-- The statistics dictionary returned by `process_detections`
(the `message` string is omitted: it is derived from the counts). -/
structure RunResult where
  detections_total : Nat
  human_confirmed_hazards : Nat
  clustered_hazards : Nat
  detections_processed : Nat
  detections_marked_noise : Nat
deriving DecidableEq, Repr

/-- The database state seen through the session: detection rows, hazard rows,
and the id `db.flush()` gives to the next inserted hazard. -/
structure DBState where
  detections : List Detection
  hazards : List Hazard
  nextHazardId : Nat
deriving DecidableEq, Repr

/-- Python truthiness of the optional `confirmed_type` string:
`None` and `""` are falsy, every other string is truthy. -/
def isTruthy : Option String → Bool
  | none => false
  | some s => !s.isEmpty

/-- Line 117: `detection.confirmed_type.lower() if detection.confirmed_type
else "unknown"`. -/
def pyLowerOrUnknown : Option String → String
  | none => "unknown"
  | some s => if s.isEmpty then "unknown" else s.toLower

/-- Python `max(list)` over a non-empty list of rationals
(the `[]` case is junk; every call site guards non-emptiness). -/
def listMaxQ : List ℚ → ℚ
  | [] => 0
  | m :: ms => ms.foldl max m

/-- Python `min(list)` over a non-empty list of timestamps. -/
def listMinI : List Int → Int
  | [] => 0
  | t :: ts => ts.foldl min t

/-- Python `max(list)` over a non-empty list of timestamps. -/
def listMaxI : List Int → Int
  | [] => 0
  | t :: ts => ts.foldl max t

/-- Python sum(magnitudes) divided by len(magnitudes). -/
def listAvgQ (l : List ℚ) : ℚ := l.sum / (l.length : ℚ)

/-- Python 3 `round(x)`: round half to even. -/
def roundHalfEven (x : ℚ) : ℤ :=
  if x - ⌊x⌋ < 1/2 then ⌊x⌋
  else if 1/2 < x - ⌊x⌋ then ⌊x⌋ + 1
  else if ⌊x⌋ % 2 = 0 then ⌊x⌋ else ⌊x⌋ + 1

/-- Python `round(x, 2)`. -/
def round2 (x : ℚ) : ℚ := (roundHalfEven (x * 100) : ℚ) / 100

/-- Modelled from the spec: `SpatialClusteringService.calculate_cluster_severity`
is defined in `app/services/clustering.py`, which is not among the sources;
the spec gives `severity = min(10, (0.7*avg + 0.3*max) / 5.0 * 10)` over the
member magnitudes, identical for both processing paths. -/
def calculate_cluster_severity (magnitudes : List ℚ) : ℚ :=
  min 10 ((7/10 * listAvgQ magnitudes + 3/10 * listMaxQ magnitudes) / 5 * 10)

/-- Modelled from the spec: `SpatialClusteringService.calculate_cluster_centroid`
is defined in `app/services/clustering.py`, which is not among the sources;
the spec gives the centroid as the arithmetic mean of the member latitudes and
longitudes independently. Coordinates arrive as `(latitude, longitude, id)`
triples and the result is `(centroid_lat, centroid_lon)`. -/
def calculate_cluster_centroid (coords : List (ℚ × ℚ × Nat)) : ℚ × ℚ :=
  ((coords.map fun c => c.1).sum / (coords.length : ℚ),
   (coords.map fun c => c.2.1).sum / (coords.length : ℚ))

/-- Lines 194-207: the algorithm-path classification of a cluster from its
`avg_magnitude`, `max_magnitude` and `detection_count`. -/
def classifyHazardType (avg mx : ℚ) (detection_count : Nat) : String :=
  if 1 ≤ mx then "speed_hump"
  else if 3/10 ≤ avg ∧ 8 ≤ detection_count then "rough_road"
  else if 2/10 ≤ avg then
    if avg ≤ 31/100 then "speed_bump" else "pothole"
  else "unknown"

/-- Lines 110-148: the hazard built from one human-confirmed detection. -/
def humanHazard (hid : Nat) (d : Detection) : Hazard :=
  { id := hid
    location := ⟨d.longitude, d.latitude⟩
    latitude := d.latitude
    longitude := d.longitude
    hazard_type := pyLowerOrUnknown d.confirmed_type
    severity := calculate_cluster_severity [d.magnitude]
    confidence := 9/10
    detection_count := 1
    unique_user_count := 1
    verification_count := 0
    positive_verifications := 0
    first_detected := d.timestamp
    last_detected := d.timestamp
    is_active := true
    is_verified := false }

/-- Lines 166-230: the hazard built from one non-empty cluster of
algorithm-only detections. -/
def clusterHazard (hid : Nat) (cluster_detections : List Detection) : Hazard :=
  let centroid := calculate_cluster_centroid
    (cluster_detections.map fun d => (d.latitude, d.longitude, d.id))
  let magnitudes := cluster_detections.map fun d => d.magnitude
  let unique_users := (cluster_detections.map fun d => d.user_id).toFinset.card
  let timestamps := cluster_detections.map fun d => d.timestamp
  let detection_count := cluster_detections.length
  { id := hid
    location := ⟨centroid.2, centroid.1⟩
    latitude := centroid.1
    longitude := centroid.2
    hazard_type := classifyHazardType (listAvgQ magnitudes) (listMaxQ magnitudes)
      detection_count
    severity := calculate_cluster_severity magnitudes
    confidence := round2 (min 1 ((detection_count : ℚ) * (1/10) + (unique_users : ℚ) * (2/10)))
    detection_count := detection_count
    unique_user_count := unique_users
    verification_count := 0
    positive_verifications := 0
    first_detected := listMinI timestamps
    last_detected := listMaxI timestamps
    is_active := true
    is_verified := false }

/-- Lines 108-148: the loop over `human_confirmed`, returning the created
hazards and the `(detection id, hazard id)` links, with hazard ids assigned
sequentially by `db.flush()`. -/
def processHumans : Nat → List Detection → List Hazard × List (Nat × Nat)
  | _, [] => ([], [])
  | hid, d :: rest =>
    let r := processHumans (hid + 1) rest
    (humanHazard hid d :: r.1, (d.id, hid) :: r.2)

/-- Lines 158-242: the loop over the clusters returned by the clustering
service. A cluster whose id set matches no algorithm-only detection is
skipped by the `continue` at line 164. -/
def processClusters (algorithm_only : List Detection) :
    Nat → List (Finset Nat) → List Hazard × List (Nat × Nat)
  | _, [] => ([], [])
  | hid, c :: rest =>
    let cluster_detections := algorithm_only.filter fun d => d.id ∈ c
    if cluster_detections.isEmpty then processClusters algorithm_only hid rest
    else
      let r := processClusters algorithm_only (hid + 1) rest
      (clusterHazard hid cluster_detections :: r.1,
       (cluster_detections.map fun d => (d.id, hid)) ++ r.2)

/-- The hazard id a detection ends up linked to: in-place mutation means the
last cluster containing the detection wins, so the last matching link. -/
def lookupLast (links : List (Nat × Nat)) (i : Nat) : Option Nat :=
  (links.reverse.find? fun p => p.1 == i).map Prod.snd

/-- The final state of one detection row after the run: unprocessed rows in
`processed_detection_ids` get `processed := true` and their hazard link
(lines 140-143, 235-239); unprocessed rows in `noise_detection_ids` get
`processed := true` with `hazard_id` untouched (lines 248-252). -/
def finishDetection (links : List (Nat × Nat)) (processedIds noiseIds : Finset Nat)
    (d : Detection) : Detection :=
  if d.processed then d
  else if d.id ∈ processedIds then
    { d with processed := true, hazard_id := lookupLast links d.id }
  else if d.id ∈ noiseIds then { d with processed := true }
  else d

/-- Line 85-87: `all_unprocessed`. -/
def unprocessedOf (st : DBState) : List Detection :=
  st.detections.filter fun d => !d.processed

/-- Line 100: `human_confirmed = [d for d in all_unprocessed if d.confirmed_type]`. -/
def humanOf (st : DBState) : List Detection :=
  (unprocessedOf st).filter fun d => isTruthy d.confirmed_type

/-- Line 101: `algorithm_only = [d for d in all_unprocessed if not d.confirmed_type]`. -/
def algoOf (st : DBState) : List Detection :=
  (unprocessedOf st).filter fun d => !isTruthy d.confirmed_type

/-- Lines 151-156: the clustering service is only invoked when
`algorithm_only` is non-empty; `cf` stands for
`SpatialClusteringService.cluster_detections`. -/
def clustersOf (cf : List (ℚ × ℚ × Nat) → List (Finset Nat)) (st : DBState) :
    List (Finset Nat) :=
  if (algoOf st).isEmpty then []
  else cf ((algoOf st).map fun d => (d.latitude, d.longitude, d.id))

/-- The hazards and links produced by the human-confirmed loop. -/
def humanRun (st : DBState) : List Hazard × List (Nat × Nat) :=
  processHumans st.nextHazardId (humanOf st)

/-- The hazards and links produced by the cluster loop; its first hazard id
follows the ones flushed by the human-confirmed loop. -/
def clusterRun (cf : List (ℚ × ℚ × Nat) → List (Finset Nat)) (st : DBState) :
    List Hazard × List (Nat × Nat) :=
  processClusters (algoOf st) (st.nextHazardId + (humanOf st).length) (clustersOf cf st)

/-- All `(detection id, hazard id)` links of the run. -/
def runLinks (cf : List (ℚ × ℚ × Nat) → List (Finset Nat)) (st : DBState) :
    List (Nat × Nat) :=
  (humanRun st).2 ++ (clusterRun cf st).2

/-- Line 106/143/239: `processed_detection_ids`. -/
def processedIdsOf (cf : List (ℚ × ℚ × Nat) → List (Finset Nat)) (st : DBState) :
    Finset Nat :=
  ((runLinks cf st).map Prod.fst).toFinset

/-- Line 245: `all_algorithm_ids`. -/
def algoIdsOf (st : DBState) : Finset Nat :=
  ((algoOf st).map fun d => d.id).toFinset

/-- Lines 245-246: `noise_detection_ids = all_algorithm_ids - processed_detection_ids`
(and the empty set when `algorithm_only` is empty, line 254; then
`algoIdsOf st` is itself empty, so the set difference agrees). -/
def noiseIdsOf (cf : List (ℚ × ℚ × Nat) → List (Finset Nat)) (st : DBState) :
    Finset Nat :=
  algoIdsOf st \ processedIdsOf cf st

/-- All hazards inserted by the run, human-confirmed ones first. -/
def createdHazards (cf : List (ℚ × ℚ × Nat) → List (Finset Nat)) (st : DBState) :
    List Hazard :=
  (humanRun st).1 ++ (clusterRun cf st).1

/-- The `POST /admin/process-detections` endpoint, lines 82-270: returns the
committed database state and the statistics dictionary. When no detection is
unprocessed it returns at lines 89-97 with all-zero counts and an unchanged
session. -/
def process_detections (cf : List (ℚ × ℚ × Nat) → List (Finset Nat)) (st : DBState) :
    DBState × RunResult :=
  if (unprocessedOf st).isEmpty then (st, ⟨0, 0, 0, 0, 0⟩)
  else
    ({ detections := st.detections.map
         (finishDetection (runLinks cf st) (processedIdsOf cf st) (noiseIdsOf cf st))
       hazards := st.hazards ++ createdHazards cf st
       nextHazardId := st.nextHazardId + (createdHazards cf st).length },
     { detections_total := (unprocessedOf st).length
       human_confirmed_hazards := (humanRun st).1.length
       clustered_hazards := (clusterRun cf st).1.length
       detections_processed := (humanRun st).2.length + (clusterRun cf st).2.length
       detections_marked_noise := (noiseIdsOf cf st).card })

/-- The `POST /admin/reset-processed` endpoint, lines 380-402: every detection
gets `processed := false` and `hazard_id := none`, every hazard is deleted,
and the returned pair is `(detections_reset, hazards_deleted)`. -/
def reset_processed (st : DBState) : DBState × Nat × Nat :=
  ({ detections := st.detections.map fun d =>
       { d with processed := false, hazard_id := none }
     hazards := []
     nextHazardId := st.nextHazardId },
   (st.detections.length, st.hazards.length))

/-- The spec's classification rule list, written as the flat first-match-wins
sequence of claim C2, to be compared with the source's nested
`classifyHazardType`. -/
def classifySpecOrdered (avg mx : ℚ) (detection_count : Nat) : String :=
  if 1 ≤ mx then "speed_hump"
  else if 3/10 ≤ avg ∧ 8 ≤ detection_count then "rough_road"
  else if 2/10 ≤ avg ∧ avg ≤ 31/100 then "speed_bump"
  else if 2/10 ≤ avg then "pothole"
  else "unknown"

/-- The empty string, as a named constant. -/
def emptyLabel : String := ""

/-- A human-supplied hazard-type label with an upper-case letter. -/
def potholeLabel : String := "Pothole"

/-- Union of a list of finite id sets (the ids claimed by a cluster list). -/
def idUnion : List (Finset Nat) → Finset Nat
  | [] => ∅
  | c :: cs => c ∪ idUnion cs

/-- A clustering service stub that returns no clusters. -/
def cfNone : List (ℚ × ℚ × Nat) → List (Finset Nat) := fun _ => []

/-- A clustering service stub that returns one cluster claiming only the
detection id 2. -/
def cfGhost : List (ℚ × ℚ × Nat) → List (Finset Nat) := fun _ => [{2}]

/-- An unprocessed algorithm-only detection with id 1. -/
def dAlgo1 : Detection :=
  { id := 1, latitude := 0, longitude := 0, magnitude := 1/2, timestamp := 0
    user_id := 7, confirmed_type := none, processed := false, hazard_id := none }

/-- An unprocessed detection whose `confirmed_type` is present but empty. -/
def dEmptyCT : Detection :=
  { id := 1, latitude := 0, longitude := 0, magnitude := 1/2, timestamp := 0
    user_id := 7, confirmed_type := some emptyLabel, processed := false
    hazard_id := none }

/-- An unprocessed human-confirmed detection with id 1. -/
def dHuman1 : Detection :=
  { id := 1, latitude := 5, longitude := 6, magnitude := 3/5, timestamp := 11
    user_id := 7, confirmed_type := some potholeLabel, processed := false
    hazard_id := none }

/-- An already-processed detection. -/
def dDone : Detection :=
  { id := 4, latitude := 0, longitude := 0, magnitude := 1/4, timestamp := 2
    user_id := 8, confirmed_type := none, processed := true, hazard_id := some 0 }

/-- A second unprocessed algorithm-only detection, id 2. -/
def dAlgo2 : Detection :=
  { id := 2, latitude := 1, longitude := 1, magnitude := 2/5, timestamp := 3
    user_id := 9, confirmed_type := none, processed := false, hazard_id := none }

/-- A clustering service stub that returns one cluster claiming id 2. -/
def cfOne : List (ℚ × ℚ × Nat) → List (Finset Nat) := fun _ => [{2}]

/-- State for the C3 counterexample: one unprocessed algorithm-only
detection, against `cfGhost`. -/
def stC3 : DBState := { detections := [dAlgo1], hazards := [], nextHazardId := 0 }

/-- State for the C5 counterexample: one unprocessed detection whose
`confirmed_type` is the empty string. -/
def stC5 : DBState := { detections := [dEmptyCT], hazards := [], nextHazardId := 0 }

/-- A mixed state: one human-confirmed, two algorithm-only (ids 1, 2, 3),
one already processed (id 4). -/
def stMix : DBState :=
  { detections := [dHuman1, dAlgo2,
      { id := 3, latitude := 1, longitude := 1, magnitude := 1/5, timestamp := 4
        user_id := 9, confirmed_type := none, processed := false, hazard_id := none },
      dDone]
    hazards := []
    nextHazardId := 0 }

/-- A state in which every detection is already processed. -/
def stDone : DBState := { detections := [dDone], hazards := [], nextHazardId := 3 }

/-! ## Basic lemmas about the list primitives -/

theorem emptyLabel_isEmpty : emptyLabel.isEmpty = true := rfl

theorem le_foldl_max {α : Type} [LinearOrder α] (l : List α) (a : α) :
    a ≤ l.foldl max a := by
  induction l generalizing a with
  | nil => exact le_refl a
  | cons b l ih => exact le_trans (le_max_left a b) (ih (max a b))

theorem foldl_min_le {α : Type} [LinearOrder α] (l : List α) (a : α) :
    l.foldl min a ≤ a := by
  induction l generalizing a with
  | nil => exact le_refl a
  | cons b l ih => exact le_trans (ih (min a b)) (min_le_left a b)

theorem listMinI_le_listMaxI (l : List Int) (h : l ≠ []) :
    listMinI l ≤ listMaxI l := by
  cases l with
  | nil => exact absurd rfl h
  | cons t ts =>
    exact le_trans (foldl_min_le ts t) (le_foldl_max ts t)

theorem listMaxQ_nonneg (l : List ℚ) (h : l ≠ []) (hp : ∀ m ∈ l, 0 ≤ m) :
    0 ≤ listMaxQ l := by
  cases l with
  | nil => exact absurd rfl h
  | cons m ms =>
    exact le_trans (hp m (List.mem_cons_self m ms)) (le_foldl_max ms m)

theorem listAvgQ_nonneg (l : List ℚ) (hp : ∀ m ∈ l, 0 ≤ m) :
    0 ≤ listAvgQ l := by
  unfold listAvgQ
  apply div_nonneg
  · exact List.sum_nonneg hp
  · exact_mod_cast Nat.zero_le l.length

/-! ## Structural lemmas about the human-confirmed loop -/

theorem processHumans_fst_length (hid : Nat) (ds : List Detection) :
    (processHumans hid ds).1.length = ds.length := by
  induction ds generalizing hid with
  | nil => rfl
  | cons d rest ih => simp [processHumans, ih]

theorem processHumans_snd_length (hid : Nat) (ds : List Detection) :
    (processHumans hid ds).2.length = ds.length := by
  induction ds generalizing hid with
  | nil => rfl
  | cons d rest ih => simp [processHumans, ih]

theorem processHumans_map_fst (hid : Nat) (ds : List Detection) :
    (processHumans hid ds).2.map Prod.fst = ds.map fun d => d.id := by
  induction ds generalizing hid with
  | nil => rfl
  | cons d rest ih => simp [processHumans, ih]

theorem processHumans_mem_fst (hid : Nat) (ds : List Detection) (hz : Hazard)
    (h : hz ∈ (processHumans hid ds).1) : ∃ j d, d ∈ ds ∧ hz = humanHazard j d := by
  induction ds generalizing hid with
  | nil => simp [processHumans] at h
  | cons d rest ih =>
    simp only [processHumans, List.mem_cons] at h
    rcases h with h | h
    · exact ⟨hid, d, List.mem_cons_self d rest, h⟩
    · obtain ⟨j, d', hd', he⟩ := ih (hid + 1) h
      exact ⟨j, d', List.mem_cons_of_mem d hd', he⟩

theorem processHumans_mem_of (hid : Nat) (ds : List Detection) (d : Detection)
    (h : d ∈ ds) : ∃ j, humanHazard j d ∈ (processHumans hid ds).1 := by
  induction ds generalizing hid with
  | nil => simp at h
  | cons d' rest ih =>
    rcases List.mem_cons.mp h with h | h
    · exact ⟨hid, by simp [processHumans, h]⟩
    · obtain ⟨j, hj⟩ := ih (hid + 1) h
      exact ⟨j, by simp [processHumans]; right; exact hj⟩

theorem processHumans_link_hazard (hid : Nat) (ds : List Detection)
    (p : Nat × Nat) (h : p ∈ (processHumans hid ds).2) :
    ∃ hz ∈ (processHumans hid ds).1, hz.id = p.2 := by
  induction ds generalizing hid with
  | nil => simp [processHumans] at h
  | cons d rest ih =>
    simp only [processHumans, List.mem_cons] at h
    rcases h with h | h
    · exact ⟨humanHazard hid d, by simp [processHumans], by simp [h, humanHazard]⟩
    · obtain ⟨hz, hmem, hid2⟩ := ih (hid + 1) h
      exact ⟨hz, by simp [processHumans]; right; exact hmem, hid2⟩

/-! ## Structural lemmas about the cluster loop -/

theorem processClusters_map_fst (algo : List Detection) (hid : Nat)
    (cs : List (Finset Nat)) :
    (processClusters algo hid cs).2.map Prod.fst
      = (cs.map fun c => (algo.filter fun d => d.id ∈ c).map fun d => d.id).flatten := by
  induction cs generalizing hid with
  | nil => rfl
  | cons c rest ih =>
    by_cases he : (algo.filter fun d => d.id ∈ c).isEmpty
    · rw [List.isEmpty_iff] at he
      simp [processClusters, he, ih]
    · simp only [processClusters, he, if_false, List.map_cons, List.flatten_cons]
      simp [ih, Function.comp]

theorem processClusters_snd_length (algo : List Detection) (hid : Nat)
    (cs : List (Finset Nat)) :
    (processClusters algo hid cs).2.length
      = (cs.map fun c => (algo.filter fun d => d.id ∈ c).length).sum := by
  induction cs generalizing hid with
  | nil => rfl
  | cons c rest ih =>
    by_cases he : (algo.filter fun d => d.id ∈ c).isEmpty
    · rw [List.isEmpty_iff] at he
      simp [processClusters, he, ih]
    · simp [processClusters, he, ih]

theorem processClusters_fst_length_le (algo : List Detection) (hid : Nat)
    (cs : List (Finset Nat)) :
    (processClusters algo hid cs).1.length ≤ cs.length := by
  induction cs generalizing hid with
  | nil => exact le_refl 0
  | cons c rest ih =>
    by_cases he : (algo.filter fun d => d.id ∈ c).isEmpty
    · simp only [processClusters, he, if_true]
      exact le_trans (ih hid) (Nat.le_succ rest.length)
    · simp only [processClusters, he, if_false, List.length_cons]
      exact Nat.succ_le_succ (ih (hid + 1))

theorem processClusters_mem_fst (algo : List Detection) (hid : Nat)
    (cs : List (Finset Nat)) (hz : Hazard)
    (h : hz ∈ (processClusters algo hid cs).1) :
    ∃ j c, c ∈ cs ∧ (algo.filter fun d => d.id ∈ c) ≠ []
      ∧ hz = clusterHazard j (algo.filter fun d => d.id ∈ c) := by
  induction cs generalizing hid with
  | nil => simp [processClusters] at h
  | cons c rest ih =>
    by_cases he : (algo.filter fun d => d.id ∈ c).isEmpty
    · simp only [processClusters, he, if_true] at h
      obtain ⟨j, c', hc', hne, heq⟩ := ih hid h
      exact ⟨j, c', List.mem_cons_of_mem c hc', hne, heq⟩
    · simp only [processClusters, he, Bool.false_eq_true, if_false, List.mem_cons] at h
      rcases h with rfl | h
      · refine ⟨hid, c, List.mem_cons_self c rest, ?_, rfl⟩
        intro hnil
        rw [hnil] at he
        exact he rfl
      · obtain ⟨j, c', hc', hne, heq⟩ := ih (hid + 1) h
        exact ⟨j, c', List.mem_cons_of_mem c hc', hne, heq⟩

theorem processClusters_link_hazard (algo : List Detection) (hid : Nat)
    (cs : List (Finset Nat)) (p : Nat × Nat)
    (h : p ∈ (processClusters algo hid cs).2) :
    ∃ hz ∈ (processClusters algo hid cs).1, hz.id = p.2 := by
  induction cs generalizing hid with
  | nil => simp [processClusters] at h
  | cons c rest ih =>
    by_cases he : (algo.filter fun d => d.id ∈ c).isEmpty
    · simp only [processClusters, he, if_true] at h ⊢
      exact ih hid h
    · simp only [processClusters, he, Bool.false_eq_true, if_false, List.mem_append] at h
      rcases h with h | h
      · refine ⟨clusterHazard hid (algo.filter fun d => d.id ∈ c), ?_, ?_⟩
        · simp [processClusters, he]
        · obtain ⟨d, _, heq⟩ := List.mem_map.mp h
          rw [← heq]
          rfl
      · obtain ⟨hz, hmem, hid2⟩ := ih (hid + 1) h
        refine ⟨hz, ?_, hid2⟩
        simp only [processClusters, he, Bool.false_eq_true, if_false, List.mem_cons]
        right
        exact hmem

/-! ## The classifier ordering -/

theorem classify_eq_spec (avg mx : ℚ) (c : Nat) :
    classifyHazardType avg mx c = classifySpecOrdered avg mx c := by
  unfold classifyHazardType classifySpecOrdered
  split_ifs <;> first | rfl | (exfalso; tauto)

/-- C2: the algorithm-path hazard type is decided by the spec's five rules in
exactly this priority order on `avg_magnitude`, `max_magnitude` and
`detection_count`; in particular `avg = 0.31` (earlier rules not matching)
gives `speed_bump`, `avg = 0.32` with fewer than 8 detections and
`max < 1.0` gives `pothole`, and `max ≥ 1.0` always gives `speed_hump`. -/
theorem classifier_priority_order :
    (∀ avg mx c, classifyHazardType avg mx c = classifySpecOrdered avg mx c)
    ∧ (∀ hid cds, (clusterHazard hid cds).hazard_type
        = classifySpecOrdered (listAvgQ (cds.map fun d => d.magnitude))
            (listMaxQ (cds.map fun d => d.magnitude)) cds.length)
    ∧ (∀ mx c, mx < 1 → c < 8 → classifyHazardType (31/100) mx c = "speed_bump")
    ∧ (∀ mx c, mx < 1 → c < 8 → classifyHazardType (32/100) mx c = "pothole")
    ∧ (∀ avg mx c, 1 ≤ mx → classifyHazardType avg mx c = "speed_hump") := by
  refine ⟨classify_eq_spec, ?_, ?_, ?_, ?_⟩
  · intro hid cds
    rw [show (clusterHazard hid cds).hazard_type
        = classifyHazardType (listAvgQ (cds.map fun d => d.magnitude))
            (listMaxQ (cds.map fun d => d.magnitude)) cds.length from rfl]
    exact classify_eq_spec _ _ _
  · intro mx c hmx hc
    unfold classifyHazardType
    rw [if_neg (by linarith), if_neg (by omega), if_pos (by norm_num),
      if_pos (by norm_num)]
  · intro mx c hmx hc
    unfold classifyHazardType
    rw [if_neg (by linarith), if_neg (by omega), if_pos (by norm_num),
      if_neg (by norm_num)]
  · intro avg mx c hmx
    unfold classifyHazardType
    rw [if_pos hmx]

theorem classifier_priority_order_witness :
    ((1:ℚ)/2 < 1 ∧ (3:Nat) < 8
      ∧ classifyHazardType (31/100) (1/2) 3 = "speed_bump")
    ∧ ((1:ℚ)/2 < 1 ∧ (3:Nat) < 8
      ∧ classifyHazardType (32/100) (1/2) 3 = "pothole")
    ∧ ((1:ℚ) ≤ 12/10 ∧ classifyHazardType (31/100) (12/10) 9 = "speed_hump") := by
  refine ⟨⟨by norm_num, by norm_num, ?_⟩, ⟨by norm_num, by norm_num, ?_⟩,
    by norm_num, ?_⟩
  · exact classifier_priority_order.2.2.1 (1/2) 3 (by norm_num) (by norm_num)
  · exact classifier_priority_order.2.2.2.1 (1/2) 3 (by norm_num) (by norm_num)
  · exact classifier_priority_order.2.2.2.2 (31/100) (12/10) 9 (by norm_num)

/-- C6: every clustered hazard's confidence is
`min(1.0, detection_count*0.1 + unique_user_count*0.2)` rounded to two
decimal places (8 detections from 4 users give 1.0), while every
human-confirmed hazard's confidence is the constant 0.9, overriding the
formula (which would give 0.3 at count 1, user 1). -/
theorem confidence_formula :
    (∀ hid cds, (clusterHazard hid cds).confidence
        = round2 (min 1 (((clusterHazard hid cds).detection_count : ℚ) * (1/10)
            + ((clusterHazard hid cds).unique_user_count : ℚ) * (2/10))))
    ∧ (∀ hid d, (humanHazard hid d).confidence = 9/10)
    ∧ round2 (min 1 ((8:ℚ) * (1/10) + (4:ℚ) * (2/10))) = 1
    ∧ round2 (min 1 ((1:ℚ) * (1/10) + (1:ℚ) * (2/10))) = 3/10 := by
  refine ⟨fun hid cds => rfl, fun hid d => rfl, ?_, ?_⟩
  · norm_num [round2, roundHalfEven]
  · norm_num [round2, roundHalfEven]

/-- C7: both paths compute severity through the same function
`calculate_cluster_severity` (a singleton magnitude list on the
human-confirmed path, the full member list on the cluster path), and on any
non-empty list of non-negative magnitudes it equals
`min(10, (0.7*avg + 0.3*max)/5*10)`, a value in `[0, 10]`. -/
theorem severity_shared_formula :
    (∀ hid d, (humanHazard hid d).severity = calculate_cluster_severity [d.magnitude])
    ∧ (∀ hid cds, (clusterHazard hid cds).severity
        = calculate_cluster_severity (cds.map fun d => d.magnitude))
    ∧ ∀ mags : List ℚ, mags ≠ [] → (∀ m ∈ mags, 0 ≤ m) →
        calculate_cluster_severity mags
          = min 10 ((7/10 * listAvgQ mags + 3/10 * listMaxQ mags) / 5 * 10)
        ∧ 0 ≤ calculate_cluster_severity mags
        ∧ calculate_cluster_severity mags ≤ 10 := by
  refine ⟨fun hid d => rfl, fun hid cds => rfl, ?_⟩
  intro mags hne hp
  refine ⟨rfl, ?_, min_le_left _ _⟩
  unfold calculate_cluster_severity
  have h1 := listAvgQ_nonneg mags hp
  have h2 := listMaxQ_nonneg mags hne hp
  apply le_min (by norm_num)
  linarith

theorem severity_shared_formula_witness :
    ([(1:ℚ)/2] ≠ []) ∧ (∀ m ∈ [(1:ℚ)/2], (0:ℚ) ≤ m)
    ∧ (calculate_cluster_severity [(1:ℚ)/2]
        = min 10 ((7/10 * listAvgQ [(1:ℚ)/2] + 3/10 * listMaxQ [(1:ℚ)/2]) / 5 * 10)
      ∧ 0 ≤ calculate_cluster_severity [(1:ℚ)/2]
      ∧ calculate_cluster_severity [(1:ℚ)/2] ≤ 10) :=
  ⟨by simp, by norm_num,
    severity_shared_formula.2.2 [(1:ℚ)/2] (by simp) (by norm_num)⟩

/-- C4: when no detection is unprocessed, `process_detections` is a no-op:
it returns the unchanged state and all-zero counts, creating no hazard and
mutating nothing. -/
theorem process_detections_noop (cf : List (ℚ × ℚ × Nat) → List (Finset Nat))
    (st : DBState) (h : ∀ d ∈ st.detections, d.processed = true) :
    process_detections cf st = (st, ⟨0, 0, 0, 0, 0⟩) := by
  unfold process_detections
  have he : (unprocessedOf st).isEmpty = true := by
    rw [List.isEmpty_iff, unprocessedOf, List.filter_eq_nil_iff]
    intro d hd
    simp [h d hd]
  simp [he]

theorem process_detections_noop_witness :
    (∀ d ∈ stDone.detections, d.processed = true)
    ∧ process_detections cfNone stDone = (stDone, ⟨0, 0, 0, 0, 0⟩) :=
  ⟨by simp [stDone, dDone],
    process_detections_noop cfNone stDone (by simp [stDone, dDone])⟩

/-- C8: `reset_processed` clears `processed` and `hazard_id` on every
detection, deletes every hazard, and returns the number of detections reset
and hazards deleted; afterwards no detection references a hazard and no
hazard exists. -/
theorem reset_processed_clears_all (st : DBState) :
    (reset_processed st).1.detections.length = st.detections.length
    ∧ (∀ d ∈ (reset_processed st).1.detections,
        d.processed = false ∧ d.hazard_id = none)
    ∧ (reset_processed st).1.hazards = []
    ∧ (reset_processed st).2 = (st.detections.length, st.hazards.length) := by
  refine ⟨by simp [reset_processed], ?_, rfl, rfl⟩
  intro d hd
  simp only [reset_processed] at hd
  obtain ⟨d0, _, rfl⟩ := List.mem_map.mp hd
  exact ⟨rfl, rfl⟩

theorem reset_processed_clears_all_witness :
    (reset_processed stDone).1.detections.length = stDone.detections.length
    ∧ (∀ d ∈ (reset_processed stDone).1.detections,
        d.processed = false ∧ d.hazard_id = none)
    ∧ (reset_processed stDone).1.hazards = []
    ∧ (reset_processed stDone).2 = (stDone.detections.length, stDone.hazards.length) :=
  reset_processed_clears_all stDone

/-! ## Routing of the confirmed-type partition -/

/-- C5 counterexample: a detection whose `confirmed_type` is present but
empty is not processed on the human-confirmed path with hazard type
`unknown` — Python truthiness routes it to the algorithm-only path, where
(with no cluster claiming it) it is marked noise with no hazard at all. -/
theorem confirmed_type_empty_cex :
    dEmptyCT.confirmed_type = some emptyLabel
    ∧ humanOf stC5 = []
    ∧ algoOf stC5 = [dEmptyCT]
    ∧ (process_detections cfNone stC5).2.human_confirmed_hazards = 0
    ∧ (process_detections cfNone stC5).1.hazards = []
    ∧ (process_detections cfNone stC5).1.detections
        = [{ dEmptyCT with processed := true }] := by
  refine ⟨rfl, ?_, ?_, ?_, ?_, ?_⟩
  · simp [humanOf, unprocessedOf, stC5, dEmptyCT, isTruthy, emptyLabel_isEmpty]
  · simp [algoOf, unprocessedOf, stC5, dEmptyCT, isTruthy, emptyLabel_isEmpty]
  · simp [process_detections, unprocessedOf, stC5, dEmptyCT, humanRun, processHumans,
      humanOf, isTruthy, emptyLabel_isEmpty]
  · simp [process_detections, unprocessedOf, stC5, dEmptyCT, createdHazards, humanRun,
      processHumans, humanOf, algoOf, isTruthy, emptyLabel_isEmpty, clusterRun,
      clustersOf, cfNone, processClusters]
  · simp [process_detections, unprocessedOf, stC5, dEmptyCT, clusterRun, clustersOf,
      algoOf, humanOf, isTruthy, cfNone, processClusters, humanRun, processHumans,
      emptyLabel_isEmpty, finishDetection, runLinks, processedIdsOf, noiseIdsOf,
      algoIdsOf]

/-- C5 amended: every unprocessed detection with a present and non-empty
`confirmed_type` is routed to the human-confirmed path, whose hazard carries
`hazard_type = lowercase(confirmed_type)` and never inspects the magnitude;
a detection whose `confirmed_type` is present but empty is routed to the
algorithm-only path instead (Python truthiness treats the empty string as
absent), so the human path's `unknown` fallback never fires for it. -/
theorem human_path_routing :
    (∀ st : DBState, ∀ d ∈ unprocessedOf st, ∀ s, d.confirmed_type = some s →
        s.isEmpty = false → d ∈ humanOf st)
    ∧ (∀ st : DBState, ∀ d ∈ unprocessedOf st, d.confirmed_type = some emptyLabel →
        d ∈ algoOf st)
    ∧ (∀ hid : Nat, ∀ ds : List Detection, ∀ d ∈ ds,
        ∃ j, humanHazard j d ∈ (processHumans hid ds).1)
    ∧ (∀ hid d s, d.confirmed_type = some s → s.isEmpty = false →
        (humanHazard hid d).hazard_type = s.toLower)
    ∧ (∀ hid d m, (humanHazard hid { d with magnitude := m }).hazard_type
        = (humanHazard hid d).hazard_type) := by
  refine ⟨?_, ?_, ?_, ?_, fun hid d m => rfl⟩
  · intro st d hd s hs hse
    rw [humanOf, List.mem_filter]
    exact ⟨hd, by simp [isTruthy, hs, hse]⟩
  · intro st d hd hs
    rw [algoOf, List.mem_filter]
    exact ⟨hd, by simp [isTruthy, hs, emptyLabel_isEmpty]⟩
  · intro hid ds d hd
    exact processHumans_mem_of hid ds d hd
  · intro hid d s hs hse
    show pyLowerOrUnknown d.confirmed_type = s.toLower
    rw [hs, pyLowerOrUnknown, hse]
    simp

theorem human_path_routing_witness :
    (dHuman1 ∈ unprocessedOf stMix ∧ dHuman1.confirmed_type = some potholeLabel
      ∧ potholeLabel.isEmpty = false ∧ dHuman1 ∈ humanOf stMix)
    ∧ (dEmptyCT ∈ unprocessedOf stC5 ∧ dEmptyCT.confirmed_type = some emptyLabel
      ∧ dEmptyCT ∈ algoOf stC5)
    ∧ (∃ j, humanHazard j dHuman1 ∈ (processHumans 0 [dHuman1]).1)
    ∧ (humanHazard 0 dHuman1).hazard_type = potholeLabel.toLower := by
  refine ⟨⟨?_, rfl, rfl, ?_⟩, ⟨?_, rfl, ?_⟩, ?_, ?_⟩
  · simp [unprocessedOf, stMix, dHuman1]
  · exact human_path_routing.1 stMix dHuman1 (by simp [unprocessedOf, stMix, dHuman1])
      potholeLabel rfl rfl
  · simp [unprocessedOf, stC5, dEmptyCT]
  · exact human_path_routing.2.1 stC5 dEmptyCT (by simp [unprocessedOf, stC5, dEmptyCT]) rfl
  · exact human_path_routing.2.2.1 0 [dHuman1] dHuman1 (by simp)
  · exact human_path_routing.2.2.2.1 0 dHuman1 potholeLabel rfl rfl

/-! ## The silent skip of an empty cluster member set -/

/-- C3 counterexample: with one unprocessed algorithm-only detection and a
clustering result whose only cluster matches no detection (so the cluster
member set is empty), `process_detections` does not reject the input or
fail: it silently skips the cluster, still transitions the detection
(marking it noise), creates no hazard, and returns normal counts. -/
theorem empty_cluster_not_rejected_cex :
    clustersOf cfGhost stC3 = [({2} : Finset Nat)]
    ∧ ((algoOf stC3).filter fun d => d.id ∈ ({2} : Finset Nat)) = []
    ∧ (process_detections cfGhost stC3).2 = ⟨1, 0, 0, 0, 1⟩
    ∧ (process_detections cfGhost stC3).1.hazards = []
    ∧ (process_detections cfGhost stC3).1 ≠ stC3 := by
  have hdet : (process_detections cfGhost stC3).1.detections
      = [{ dAlgo1 with processed := true }] := by
    simp [process_detections, unprocessedOf, stC3, dAlgo1, clusterRun, clustersOf,
      algoOf, humanOf, isTruthy, cfGhost, processClusters, humanRun, processHumans,
      finishDetection, runLinks, processedIdsOf, noiseIdsOf, algoIdsOf]
  refine ⟨?_, ?_, ?_, ?_, ?_⟩
  · simp [clustersOf, algoOf, unprocessedOf, stC3, dAlgo1, isTruthy, cfGhost]
  · simp [algoOf, unprocessedOf, stC3, dAlgo1, isTruthy]
  · simp [process_detections, unprocessedOf, stC3, dAlgo1, clusterRun, clustersOf,
      algoOf, humanOf, isTruthy, cfGhost, processClusters, humanRun, processHumans,
      runLinks, processedIdsOf, noiseIdsOf, algoIdsOf]
  · simp [process_detections, unprocessedOf, stC3, dAlgo1, createdHazards, clusterRun,
      clustersOf, algoOf, humanOf, isTruthy, cfGhost, processClusters, humanRun,
      processHumans]
  · intro heq
    have hd : ([{ dAlgo1 with processed := true }] : List Detection) = [dAlgo1] := by
      rw [← hdet, heq]
      rfl
    have hcons := (List.cons.injEq _ _ _ _).mp hd
    have : ({ dAlgo1 with processed := true } : Detection).processed = dAlgo1.processed := by
      rw [hcons.1]
    simp [dAlgo1] at this

/-- C3 amended: `process_detections` does not validate its input: a cluster
whose id set matches no algorithm-only detection (empty member set) is
silently skipped by the cluster loop — no hazard is created from it, no
failure is raised, and processing continues with the remaining clusters. -/
theorem empty_cluster_silently_skipped (algo : List Detection) (hid : Nat)
    (c : Finset Nat) (cs : List (Finset Nat)) (h : ∀ d ∈ algo, d.id ∉ c) :
    processClusters algo hid (c :: cs) = processClusters algo hid cs := by
  have he : (algo.filter fun d => d.id ∈ c) = [] := by
    rw [List.filter_eq_nil_iff]
    intro d hd
    simp [h d hd]
  simp [processClusters, he]

theorem empty_cluster_silently_skipped_witness :
    (∀ d ∈ [dAlgo1], d.id ∉ ({2} : Finset Nat))
    ∧ processClusters [dAlgo1] 0 [({2} : Finset Nat)] = processClusters [dAlgo1] 0 [] :=
  ⟨by simp [dAlgo1],
    empty_cluster_silently_skipped [dAlgo1] 0 {2} [] (by simp [dAlgo1])⟩

/-! ## Field invariants of created hazards -/

theorem clusterHazard_first_le_last (hid : Nat) (cds : List Detection)
    (h : cds ≠ []) :
    (clusterHazard hid cds).first_detected ≤ (clusterHazard hid cds).last_detected := by
  show listMinI (cds.map fun d => d.timestamp) ≤ listMaxI (cds.map fun d => d.timestamp)
  apply listMinI_le_listMaxI
  simp [h]

/-- C10: every hazard created by a run, on either path, has
`verification_count = 0` and `positive_verifications = 0`, has
`first_detected ≤ last_detected`, and its WKT location point carries exactly
its own longitude/latitude in longitude-then-latitude order; on the
human-confirmed path the temporal bounds are equal, both being the single
member detection's timestamp. -/
theorem created_hazard_invariants (cf : List (ℚ × ℚ × Nat) → List (Finset Nat))
    (st : DBState) : ∀ hz ∈ createdHazards cf st,
    hz.verification_count = 0 ∧ hz.positive_verifications = 0
    ∧ hz.first_detected ≤ hz.last_detected
    ∧ hz.location.x = hz.longitude ∧ hz.location.y = hz.latitude
    ∧ (hz ∈ (humanRun st).1 →
        hz.first_detected = hz.last_detected
        ∧ ∃ d ∈ humanOf st, hz.first_detected = d.timestamp) := by
  intro hz hmem
  have hhuman : hz ∈ (humanRun st).1 →
      hz.first_detected = hz.last_detected
      ∧ ∃ d ∈ humanOf st, hz.first_detected = d.timestamp := by
    intro hmem2
    rw [humanRun] at hmem2
    obtain ⟨j2, d, hd, he⟩ := processHumans_mem_fst _ _ _ hmem2
    rw [he]
    exact ⟨rfl, d, hd, rfl⟩
  rw [createdHazards, List.mem_append] at hmem
  rcases hmem with hm | hm
  · rw [humanRun] at hm
    obtain ⟨j, d, hd, rfl⟩ := processHumans_mem_fst _ _ _ hm
    exact ⟨rfl, rfl, le_refl _, rfl, rfl, hhuman⟩
  · rw [clusterRun] at hm
    obtain ⟨j, c, hc, hne, rfl⟩ := processClusters_mem_fst _ _ _ _ hm
    exact ⟨rfl, rfl, clusterHazard_first_le_last _ _ hne, rfl, rfl, hhuman⟩

theorem created_hazard_invariants_witness :
    humanHazard 0 dHuman1 ∈ createdHazards cfOne stMix
    ∧ ((humanHazard 0 dHuman1).verification_count = 0
      ∧ (humanHazard 0 dHuman1).positive_verifications = 0
      ∧ (humanHazard 0 dHuman1).first_detected ≤ (humanHazard 0 dHuman1).last_detected
      ∧ (humanHazard 0 dHuman1).location.x = (humanHazard 0 dHuman1).longitude
      ∧ (humanHazard 0 dHuman1).location.y = (humanHazard 0 dHuman1).latitude
      ∧ (humanHazard 0 dHuman1 ∈ (humanRun stMix).1 →
          (humanHazard 0 dHuman1).first_detected = (humanHazard 0 dHuman1).last_detected
          ∧ ∃ d ∈ humanOf stMix, (humanHazard 0 dHuman1).first_detected = d.timestamp)) := by
  have hm : humanHazard 0 dHuman1 ∈ createdHazards cfOne stMix := by
    simp [createdHazards, humanRun, humanOf, unprocessedOf, stMix, isTruthy,
      dHuman1, dAlgo2, dDone, processHumans]
  exact ⟨hm, created_hazard_invariants cfOne stMix (humanHazard 0 dHuman1) hm⟩

/-! ## Where each unprocessed detection's id ends up -/

theorem runLinks_hazard (cf : List (ℚ × ℚ × Nat) → List (Finset Nat))
    (st : DBState) (p : Nat × Nat) (h : p ∈ runLinks cf st) :
    ∃ hz ∈ createdHazards cf st, hz.id = p.2 := by
  rw [runLinks, List.mem_append] at h
  rcases h with h | h
  · rw [humanRun] at h
    obtain ⟨hz, hm, he⟩ := processHumans_link_hazard _ _ p h
    refine ⟨hz, ?_, he⟩
    rw [createdHazards]
    exact List.mem_append_left _ (by rw [humanRun]; exact hm)
  · rw [clusterRun] at h
    obtain ⟨hz, hm, he⟩ := processClusters_link_hazard _ _ _ p h
    refine ⟨hz, ?_, he⟩
    rw [createdHazards]
    exact List.mem_append_right _ (by rw [clusterRun]; exact hm)

theorem human_mem_processedIds (cf : List (ℚ × ℚ × Nat) → List (Finset Nat))
    (st : DBState) (d : Detection) (h : d ∈ humanOf st) :
    d.id ∈ processedIdsOf cf st := by
  rw [processedIdsOf, List.mem_toFinset, runLinks, List.map_append, List.mem_append]
  left
  rw [humanRun, processHumans_map_fst]
  exact List.mem_map_of_mem _ h

theorem claimed_mem_processedIds (cf : List (ℚ × ℚ × Nat) → List (Finset Nat))
    (st : DBState) (d : Detection) (c : Finset Nat)
    (hd : d ∈ algoOf st) (hc : c ∈ clustersOf cf st) (hin : d.id ∈ c) :
    d.id ∈ processedIdsOf cf st := by
  rw [processedIdsOf, List.mem_toFinset, runLinks, List.map_append, List.mem_append]
  right
  rw [clusterRun, processClusters_map_fst, List.mem_flatten]
  refine ⟨((algoOf st).filter fun x => x.id ∈ c).map fun x => x.id, ?_, ?_⟩
  · exact List.mem_map_of_mem _ hc
  · exact List.mem_map_of_mem _ (List.mem_filter.mpr ⟨hd, by simp [hin]⟩)

theorem unprocessed_id_covered (cf : List (ℚ × ℚ × Nat) → List (Finset Nat))
    (st : DBState) (d : Detection) (h : d ∈ unprocessedOf st) :
    d.id ∈ processedIdsOf cf st ∨ d.id ∈ noiseIdsOf cf st := by
  by_cases hp : d.id ∈ processedIdsOf cf st
  · exact Or.inl hp
  · right
    rw [noiseIdsOf, Finset.mem_sdiff]
    refine ⟨?_, hp⟩
    by_cases ht : isTruthy d.confirmed_type
    · exact absurd (human_mem_processedIds cf st d (List.mem_filter.mpr ⟨h, ht⟩)) hp
    · rw [algoIdsOf, List.mem_toFinset]
      exact List.mem_map_of_mem _ (List.mem_filter.mpr ⟨h, by simp [ht]⟩)

theorem lookupLast_mem (links : List (Nat × Nat)) (i h : Nat)
    (he : lookupLast links i = some h) : (i, h) ∈ links := by
  rw [lookupLast] at he
  cases hf : links.reverse.find? (fun p => p.1 == i) with
  | none => rw [hf] at he; simp at he
  | some p =>
    rw [hf] at he
    have hp1 := List.find?_some hf
    have hmem : p ∈ links.reverse := List.mem_of_find?_eq_some hf
    have hpe : p = (i, h) := by
      obtain ⟨a, b⟩ := p
      simp at hp1 he
      simp [hp1, he]
    rw [← hpe]
    exact List.mem_reverse.mp hmem

theorem lookupLast_isSome (links : List (Nat × Nat)) (i : Nat)
    (hex : ∃ p ∈ links, p.1 = i) : ∃ h, lookupLast links i = some h := by
  cases hf : links.reverse.find? (fun p => p.1 == i) with
  | none =>
    exfalso
    rw [List.find?_eq_none] at hf
    obtain ⟨p, hp, he⟩ := hex
    exact hf p (List.mem_reverse.mpr hp) (by simp [he])
  | some p => exact ⟨p.2, by rw [lookupLast, hf]; rfl⟩

/-- C1: on a non-empty set of unprocessed detections whose `hazard_id` starts
unset, a run of `process_detections` leaves the final detection list equal to
the input list with each row finalized; every detection ends with
`processed = true`, and every input-unprocessed detection ends in exactly one
terminal outcome: if its final `hazard_id` is set, it is the id of a hazard
created by this run, and if it was marked noise its `hazard_id` stays unset. -/
theorem run_every_detection_terminal (cf : List (ℚ × ℚ × Nat) → List (Finset Nat))
    (st : DBState) (hne : unprocessedOf st ≠ [])
    (hzero : ∀ d ∈ st.detections, d.processed = false → d.hazard_id = none) :
    (process_detections cf st).1.detections
      = st.detections.map (finishDetection (runLinks cf st) (processedIdsOf cf st)
          (noiseIdsOf cf st))
    ∧ (∀ d ∈ (process_detections cf st).1.detections, d.processed = true)
    ∧ (∀ d ∈ st.detections, d.processed = false →
        (finishDetection (runLinks cf st) (processedIdsOf cf st) (noiseIdsOf cf st)
          d).processed = true)
    ∧ (∀ d ∈ st.detections, d.processed = false → ∀ h,
        (finishDetection (runLinks cf st) (processedIdsOf cf st) (noiseIdsOf cf st)
          d).hazard_id = some h →
        ∃ hz ∈ createdHazards cf st, hz.id = h)
    ∧ (∀ d ∈ st.detections, d.processed = false → d.id ∈ noiseIdsOf cf st →
        (finishDetection (runLinks cf st) (processedIdsOf cf st) (noiseIdsOf cf st)
          d).hazard_id = none) := by
  have hdet_eq : (process_detections cf st).1.detections
      = st.detections.map (finishDetection (runLinks cf st) (processedIdsOf cf st)
          (noiseIdsOf cf st)) := by
    rw [process_detections, if_neg]
    rw [List.isEmpty_iff]
    exact hne
  have hfin_proc : ∀ d ∈ st.detections, d.processed = false →
      (finishDetection (runLinks cf st) (processedIdsOf cf st) (noiseIdsOf cf st)
        d).processed = true := by
    intro d hd hp
    have hun : d ∈ unprocessedOf st := List.mem_filter.mpr ⟨hd, by simp [hp]⟩
    rw [finishDetection, if_neg (by simp [hp])]
    rcases unprocessed_id_covered cf st d hun with hc | hc
    · rw [if_pos hc]
    · by_cases h2 : d.id ∈ processedIdsOf cf st
      · rw [if_pos h2]
      · rw [if_neg h2, if_pos hc]
  have hall : ∀ d ∈ (process_detections cf st).1.detections, d.processed = true := by
    rw [hdet_eq]
    intro d' hd'
    obtain ⟨d, hd, rfl⟩ := List.mem_map.mp hd'
    by_cases hp : d.processed
    · rw [finishDetection, if_pos hp]
      exact hp
    · exact hfin_proc d hd (by simpa using hp)
  have hlink : ∀ d ∈ st.detections, d.processed = false → ∀ h,
      (finishDetection (runLinks cf st) (processedIdsOf cf st) (noiseIdsOf cf st)
        d).hazard_id = some h →
      ∃ hz ∈ createdHazards cf st, hz.id = h := by
    intro d hd hp h he
    rw [finishDetection, if_neg (by simp [hp])] at he
    by_cases h2 : d.id ∈ processedIdsOf cf st
    · rw [if_pos h2] at he
      have he2 : lookupLast (runLinks cf st) d.id = some h := he
      exact runLinks_hazard cf st (d.id, h) (lookupLast_mem _ _ _ he2)
    · rw [if_neg h2] at he
      by_cases h3 : d.id ∈ noiseIdsOf cf st
      · rw [if_pos h3] at he
        have hcontra : d.hazard_id = some h := he
        rw [hzero d hd hp] at hcontra
        exact absurd hcontra (by simp)
      · rw [if_neg h3] at he
        have hcontra : d.hazard_id = some h := he
        rw [hzero d hd hp] at hcontra
        exact absurd hcontra (by simp)
  have hnoise : ∀ d ∈ st.detections, d.processed = false → d.id ∈ noiseIdsOf cf st →
      (finishDetection (runLinks cf st) (processedIdsOf cf st) (noiseIdsOf cf st)
        d).hazard_id = none := by
    intro d hd hp hn
    have h2 : d.id ∉ processedIdsOf cf st := by
      rw [noiseIdsOf, Finset.mem_sdiff] at hn
      exact hn.2
    rw [finishDetection, if_neg (by simp [hp]), if_neg h2, if_pos hn]
    exact hzero d hd hp
  exact ⟨hdet_eq, hall, hfin_proc, hlink, hnoise⟩

theorem run_every_detection_terminal_witness :
    (unprocessedOf stMix ≠ [])
    ∧ (∀ d ∈ stMix.detections, d.processed = false → d.hazard_id = none)
    ∧ ((process_detections cfOne stMix).1.detections
        = stMix.detections.map (finishDetection (runLinks cfOne stMix)
            (processedIdsOf cfOne stMix) (noiseIdsOf cfOne stMix))
      ∧ (∀ d ∈ (process_detections cfOne stMix).1.detections, d.processed = true)
      ∧ (∀ d ∈ stMix.detections, d.processed = false →
          (finishDetection (runLinks cfOne stMix) (processedIdsOf cfOne stMix)
            (noiseIdsOf cfOne stMix) d).processed = true)
      ∧ (∀ d ∈ stMix.detections, d.processed = false → ∀ h,
          (finishDetection (runLinks cfOne stMix) (processedIdsOf cfOne stMix)
            (noiseIdsOf cfOne stMix) d).hazard_id = some h →
          ∃ hz ∈ createdHazards cfOne stMix, hz.id = h)
      ∧ (∀ d ∈ stMix.detections, d.processed = false → d.id ∈ noiseIdsOf cfOne stMix →
          (finishDetection (runLinks cfOne stMix) (processedIdsOf cfOne stMix)
            (noiseIdsOf cfOne stMix) d).hazard_id = none)) := by
  have h1 : unprocessedOf stMix ≠ [] := by
    simp [unprocessedOf, stMix, dHuman1, dAlgo2, dDone]
  have h2 : ∀ d ∈ stMix.detections, d.processed = false → d.hazard_id = none := by
    simp [stMix, dHuman1, dAlgo2, dDone]
  exact ⟨h1, h2, run_every_detection_terminal cfOne stMix h1 h2⟩

/-! ## Counting lemmas for the run statistics -/

theorem filter_partition_length (l : List Detection) (p : Detection → Bool) :
    (l.filter p).length + (l.filter fun d => !p d).length = l.length := by
  induction l with
  | nil => rfl
  | cons a rest ih => by_cases h : p a <;> simp [List.filter_cons, h] <;> omega

theorem algo_ids_nodup (st : DBState)
    (h : (st.detections.map fun d => d.id).Nodup) :
    ((algoOf st).map fun d => d.id).Nodup := by
  have hs : List.Sublist (algoOf st) st.detections :=
    List.Sublist.trans (List.filter_sublist _) (List.filter_sublist _)
  exact (hs.map fun d => d.id).nodup h

theorem filter_map_id_comm (algo : List Detection) (c : Finset Nat) :
    (algo.filter fun d => d.id ∈ c).map (fun d => d.id)
      = (algo.map fun d => d.id).filter (fun i => i ∈ c) := by
  induction algo with
  | nil => rfl
  | cons a l ih => by_cases h : a.id ∈ c <;> simp [List.filter_cons, h, ih]

theorem claimed_ids_toFinset (algo : List Detection) (c : Finset Nat)
    (hsub : c ⊆ (algo.map fun d => d.id).toFinset) :
    ((algo.filter fun d => d.id ∈ c).map fun d => d.id).toFinset = c := by
  ext i
  rw [List.mem_toFinset, filter_map_id_comm, List.mem_filter]
  simp only [decide_eq_true_eq]
  constructor
  · exact fun h => h.2
  · intro hic
    exact ⟨List.mem_toFinset.mp (hsub hic), hic⟩

theorem claimed_length_card (algo : List Detection) (c : Finset Nat)
    (hnd : (algo.map fun d => d.id).Nodup)
    (hsub : c ⊆ (algo.map fun d => d.id).toFinset) :
    (algo.filter fun d => d.id ∈ c).length = c.card := by
  have h1 : (algo.filter fun d => d.id ∈ c).length
      = ((algo.map fun d => d.id).filter (fun i => i ∈ c)).length := by
    rw [← filter_map_id_comm, List.length_map]
  rw [h1, ← List.toFinset_card_of_nodup (hnd.filter _)]
  have h2 := claimed_ids_toFinset algo c hsub
  rw [filter_map_id_comm] at h2
  rw [h2]

theorem idUnion_subset (cs : List (Finset Nat)) (s : Finset Nat)
    (h : ∀ c ∈ cs, c ⊆ s) : idUnion cs ⊆ s := by
  induction cs with
  | nil => simp [idUnion]
  | cons c rest ih =>
    rw [idUnion]
    exact Finset.union_subset (h c (List.mem_cons_self c rest))
      (ih fun c' hc' => h c' (List.mem_cons_of_mem c hc'))

theorem disjoint_idUnion (c : Finset Nat) (cs : List (Finset Nat))
    (h : ∀ c' ∈ cs, Disjoint c c') : Disjoint c (idUnion cs) := by
  induction cs with
  | nil => simp [idUnion]
  | cons a rest ih =>
    rw [idUnion, Finset.disjoint_union_right]
    exact ⟨h a (List.mem_cons_self a rest),
      ih fun c' hc' => h c' (List.mem_cons_of_mem a hc')⟩

theorem idUnion_card (cs : List (Finset Nat)) (h : cs.Pairwise Disjoint) :
    (idUnion cs).card = (cs.map Finset.card).sum := by
  induction cs with
  | nil => simp [idUnion]
  | cons c rest ih =>
    rw [List.pairwise_cons] at h
    rw [idUnion, List.map_cons, List.sum_cons,
      Finset.card_union_of_disjoint (disjoint_idUnion c rest h.1), ih h.2]

theorem flatten_toFinset (ls : List (List Nat)) :
    ls.flatten.toFinset = idUnion (ls.map List.toFinset) := by
  induction ls with
  | nil => rfl
  | cons a rest ih =>
    rw [List.flatten_cons, List.toFinset_append, List.map_cons, idUnion, ih]

theorem clusterLinks_ids (cf : List (ℚ × ℚ × Nat) → List (Finset Nat))
    (st : DBState) (hsub : ∀ c ∈ clustersOf cf st, c ⊆ algoIdsOf st) :
    ((clusterRun cf st).2.map Prod.fst).toFinset = idUnion (clustersOf cf st) := by
  rw [clusterRun, processClusters_map_fst, flatten_toFinset, List.map_map]
  have hcong : (clustersOf cf st).map
      (List.toFinset ∘ fun c => ((algoOf st).filter fun d => d.id ∈ c).map fun d => d.id)
      = (clustersOf cf st).map id := by
    apply List.map_congr_left
    intro c hc
    simp only [Function.comp, id]
    exact claimed_ids_toFinset (algoOf st) c (hsub c hc)
  rw [hcong, List.map_id]

theorem human_algo_ids_disjoint (st : DBState)
    (h : (st.detections.map fun d => d.id).Nodup) :
    Disjoint ((humanOf st).map fun d => d.id).toFinset (algoIdsOf st) := by
  rw [Finset.disjoint_left]
  intro i hi ha
  rw [List.mem_toFinset, List.mem_map] at hi
  rw [algoIdsOf, List.mem_toFinset, List.mem_map] at ha
  obtain ⟨d1, hd1, he1⟩ := hi
  obtain ⟨d2, hd2, he2⟩ := ha
  have hd1m : d1 ∈ st.detections :=
    (List.mem_filter.mp (List.mem_filter.mp hd1).1).1
  have hd2m : d2 ∈ st.detections :=
    (List.mem_filter.mp (List.mem_filter.mp hd2).1).1
  have heq : d1 = d2 := List.inj_on_of_nodup_map h hd1m hd2m (by rw [he1, he2])
  have ht1 : isTruthy d1.confirmed_type = true := (List.mem_filter.mp hd1).2
  have ht2 : (!isTruthy d2.confirmed_type) = true := (List.mem_filter.mp hd2).2
  rw [heq] at ht1
  simp [ht1] at ht2

theorem processedIds_eq (cf : List (ℚ × ℚ × Nat) → List (Finset Nat))
    (st : DBState) (hsub : ∀ c ∈ clustersOf cf st, c ⊆ algoIdsOf st) :
    processedIdsOf cf st
      = ((humanOf st).map fun d => d.id).toFinset ∪ idUnion (clustersOf cf st) := by
  rw [processedIdsOf, runLinks, List.map_append, List.toFinset_append]
  rw [humanRun, processHumans_map_fst, clusterLinks_ids cf st hsub]

theorem noise_card (cf : List (ℚ × ℚ × Nat) → List (Finset Nat)) (st : DBState)
    (hnodup : (st.detections.map fun d => d.id).Nodup)
    (hdisj : (clustersOf cf st).Pairwise Disjoint)
    (hsub : ∀ c ∈ clustersOf cf st, c ⊆ algoIdsOf st) :
    (noiseIdsOf cf st).card
      = (algoOf st).length - ((clustersOf cf st).map Finset.card).sum := by
  rw [noiseIdsOf, processedIds_eq cf st hsub]
  have hdisH := human_algo_ids_disjoint st hnodup
  have hstep : algoIdsOf st
        \ (((humanOf st).map fun d => d.id).toFinset ∪ idUnion (clustersOf cf st))
      = algoIdsOf st \ idUnion (clustersOf cf st) := by
    ext i
    simp only [Finset.mem_sdiff, Finset.mem_union]
    constructor
    · rintro ⟨hi, hn⟩
      exact ⟨hi, fun hu => hn (Or.inr hu)⟩
    · rintro ⟨hi, hn⟩
      refine ⟨hi, ?_⟩
      rintro (hh | hu)
      · exact (Finset.disjoint_right.mp hdisH hi) hh
      · exact hn hu
  rw [hstep, Finset.card_sdiff (idUnion_subset _ _ hsub), idUnion_card _ hdisj,
    algoIdsOf, List.toFinset_card_of_nodup (algo_ids_nodup st hnodup), List.length_map]

/-- C9: when the clustering service returns pairwise-disjoint clusters drawn
from the algorithm-only ids (and detection ids are unique), the returned
counts are mutually consistent: `detections_total` is `detections_processed`
plus `detections_marked_noise`; `detections_processed` is the number of
human-confirmed detections plus the sum of the cluster sizes; and the number
of hazards added to the store is `human_confirmed_hazards` plus
`clustered_hazards`. -/
theorem run_counts_consistent (cf : List (ℚ × ℚ × Nat) → List (Finset Nat))
    (st : DBState)
    (hnodup : (st.detections.map fun d => d.id).Nodup)
    (hdisj : (clustersOf cf st).Pairwise Disjoint)
    (hsub : ∀ c ∈ clustersOf cf st, c ⊆ algoIdsOf st) :
    (process_detections cf st).2.detections_total
      = (process_detections cf st).2.detections_processed
        + (process_detections cf st).2.detections_marked_noise
    ∧ (process_detections cf st).2.detections_processed
      = (humanOf st).length + ((clustersOf cf st).map Finset.card).sum
    ∧ (process_detections cf st).1.hazards.length
      = st.hazards.length + (process_detections cf st).2.human_confirmed_hazards
        + (process_detections cf st).2.clustered_hazards := by
  by_cases hem : (unprocessedOf st).isEmpty
  · have hrw : process_detections cf st = (st, ⟨0, 0, 0, 0, 0⟩) := by
      rw [process_detections, if_pos hem]
    have hud : unprocessedOf st = [] := List.isEmpty_iff.mp hem
    have hhu : humanOf st = [] := by
      rw [humanOf, hud]
      rfl
    have hcle : clustersOf cf st = [] := by
      rw [clustersOf, algoOf, hud]
      rfl
    rw [hrw, hhu, hcle]
    simp
  · have hne2 : ¬ ((unprocessedOf st).isEmpty = true) := hem
    have hr2 : (process_detections cf st).2
        = ⟨(unprocessedOf st).length, (humanRun st).1.length,
           (clusterRun cf st).1.length,
           (humanRun st).2.length + (clusterRun cf st).2.length,
           (noiseIdsOf cf st).card⟩ := by
      rw [process_detections, if_neg hne2]
    have hr1 : (process_detections cf st).1.hazards
        = st.hazards ++ createdHazards cf st := by
      rw [process_detections, if_neg hne2]
    have hhl : (humanRun st).2.length = (humanOf st).length := by
      rw [humanRun, processHumans_snd_length]
    have hcll : (clusterRun cf st).2.length
        = ((clustersOf cf st).map Finset.card).sum := by
      rw [clusterRun, processClusters_snd_length]
      congr 1
      apply List.map_congr_left
      intro c hc
      exact claimed_length_card (algoOf st) c (algo_ids_nodup st hnodup) (hsub c hc)
    have hnc := noise_card cf st hnodup hdisj hsub
    have htot : (unprocessedOf st).length
        = (humanOf st).length + (algoOf st).length := by
      rw [humanOf, algoOf]
      exact (filter_partition_length (unprocessedOf st) _).symm
    have hSle : ((clustersOf cf st).map Finset.card).sum ≤ (algoOf st).length := by
      have h1 : (idUnion (clustersOf cf st)).card ≤ (algoIdsOf st).card :=
        Finset.card_le_card (idUnion_subset _ _ hsub)
      rw [idUnion_card _ hdisj, algoIdsOf,
        List.toFinset_card_of_nodup (algo_ids_nodup st hnodup), List.length_map] at h1
      exact h1
    refine ⟨?_, ?_, ?_⟩
    · rw [hr2]
      show (unprocessedOf st).length
        = ((humanRun st).2.length + (clusterRun cf st).2.length) + (noiseIdsOf cf st).card
      rw [hhl, hcll, hnc, htot]
      omega
    · rw [hr2]
      show (humanRun st).2.length + (clusterRun cf st).2.length
        = (humanOf st).length + ((clustersOf cf st).map Finset.card).sum
      rw [hhl, hcll]
    · rw [hr1, hr2]
      show (st.hazards ++ createdHazards cf st).length
        = st.hazards.length + (humanRun st).1.length + (clusterRun cf st).1.length
      rw [List.length_append, createdHazards, List.length_append]
      omega

theorem run_counts_consistent_witness :
    ((stMix.detections.map fun d => d.id).Nodup)
    ∧ ((clustersOf cfOne stMix).Pairwise Disjoint)
    ∧ (∀ c ∈ clustersOf cfOne stMix, c ⊆ algoIdsOf stMix)
    ∧ ((process_detections cfOne stMix).2.detections_total
        = (process_detections cfOne stMix).2.detections_processed
          + (process_detections cfOne stMix).2.detections_marked_noise
      ∧ (process_detections cfOne stMix).2.detections_processed
        = (humanOf stMix).length + ((clustersOf cfOne stMix).map Finset.card).sum
      ∧ (process_detections cfOne stMix).1.hazards.length
        = stMix.hazards.length + (process_detections cfOne stMix).2.human_confirmed_hazards
          + (process_detections cfOne stMix).2.clustered_hazards) :=
  ⟨by decide, by decide, by decide,
    run_counts_consistent cfOne stMix (by decide) (by decide) (by decide)⟩
